import Mathlib

/-!
Verification of the rate-state subsystem of `conversor_monedas.py`.

The Python source is shallowly embedded: the global `RATES` dict becomes an
explicit table `String → Option ℚ`, the on-disk JSON cache becomes an
inductive `CacheFile`/`JVal` value, Python's `decimal.Decimal` values are
modelled as rationals with explicit rounding to the 28-significant-digit
context precision, and Python exceptions become `Except PyErr` results.
-/

namespace Conversor

/-- A JSON value, as produced by `json.load` (and the Python objects it
decodes to: `None`, `bool`, numbers, `str`, `list`, `dict`).  JSON numbers
are modelled as rationals; `dict`s as ordered association lists in which a
later binding for the same key shadows an earlier one, matching both
`json.load` duplicate handling and Python dict assignment order. -/
inductive JVal where
  | null : JVal
  | bool (b : Bool) : JVal
  | num (q : ℚ) : JVal
  | str (s : String) : JVal
  | arr (xs : List JVal) : JVal
  | obj (fields : List (String × JVal)) : JVal

/-- Python dynamic-typing exceptions that the source can actually raise in
the modelled code paths. -/
inductive PyErr where
  | attributeError : PyErr
  | typeError : PyErr
  | valueError : PyErr
deriving DecidableEq

/-- Python truthiness of a decoded JSON value: `None`, `False`, `0`, `""`,
`[]` and `{}` are falsy, everything else truthy. -/
def pyTruthy : JVal → Bool
  | .null => false
  | .bool b => b
  | .num q => q != 0
  | .str s => s != ""
  | .arr [] => false
  | .arr (_ :: _) => true
  | .obj [] => false
  | .obj (_ :: _) => true

/-- Lookup in a Python dict modelled as an ordered association list; a later
binding for the same key wins, as in `dict` / `json.load`. -/
def dictGet (fields : List (String × JVal)) (k : String) : Option JVal :=
  fields.foldl (fun acc p => if p.1 = k then some p.2 else acc) none

/-- Python `value == today` where `today` is a `str`: equality between a
decoded JSON value and a string is `True` only for equal strings, and never
raises. -/
def jEqStr (v : JVal) (s : String) : Bool :=
  match v with
  | .str t => t = s
  | _ => false

/-- Python `v >= m` for an `int` bound `m`: defined for numbers and for
`bool` (which is an `int` subclass, `True` = 1, `False` = 0); any other
operand raises `TypeError`. -/
def pyGE (v : JVal) (m : ℤ) : Except PyErr Bool :=
  match v with
  | .num q => .ok (decide ((m : ℚ) ≤ q))
  | .bool b => .ok (decide (m ≤ (if b then (1 : ℤ) else 0)))
  | _ => .error .typeError

/-- The supported currency codes, in the insertion order of the source's
`RATES` dict (the `SUPPORTED` set literal holds the same eleven codes). -/
def SUPPORTED_LIST : List String :=
  ["USD", "EUR", "MXN", "ARS", "COP", "CLP", "PEN", "GBP", "JPY", "BRL", "CAD"]

/-- An in-memory rate table: the global `RATES` dict, currency code to
decimal rate. -/
def Table : Type := String → Option ℚ

/-- Pointwise dict assignment `RATES[code] = v`. -/
def updTable (tbl : Table) (k : String) (v : ℚ) : Table :=
  fun c => if c = k then some v else tbl c

/-- The compiled-in default rates (source lines 20-32). -/
def RATES0 : Table := fun c =>
  if c = "USD" then some 1
  else if c = "EUR" then some (92/100)
  else if c = "MXN" then some (198/10)
  else if c = "ARS" then some 980
  else if c = "COP" then some 3940
  else if c = "CLP" then some 910
  else if c = "PEN" then some (375/100)
  else if c = "GBP" then some (78/100)
  else if c = "JPY" then some (1465/10)
  else if c = "BRL" then some (51/10)
  else if c = "CAD" then some (136/100)
  else none

/-- The persisted cache file resource: missing, present but not valid JSON,
or present with a decoded JSON document. -/
inductive CacheFile where
  | missing : CacheFile
  | unparsable : CacheFile
  | content (v : JVal) : CacheFile

/-- The mutable program state the claims range over: the `RATES` global and
the cache file. -/
structure ProgState where
  RATES : Table
  cacheFile : CacheFile

/-- Source `_load_cache` (lines 42-49): `None` when the file is missing and
`None` when reading or JSON-parsing raises (the bare `except` swallows
everything); otherwise the decoded document. -/
def load_cache : CacheFile → Option JVal
  | .missing => none
  | .unparsable => none
  | .content v => some v

/-- Digit characters to the natural number they denote. -/
def digitsToNat (cs : List Char) : ℕ :=
  cs.foldl (fun a c => a * 10 + (c.toNat - '0'.toNat)) 0

/-- Exponent suffix of a decimal literal: empty, or `e`/`E`, optional sign,
digits, end of input. -/
def parseExpPart : List Char → Option ℤ
  | [] => some 0
  | c :: rest =>
    if c = 'e' ∨ c = 'E' then
      let p : Bool × List Char :=
        match rest with
        | '-' :: t => (true, t)
        | '+' :: t => (false, t)
        | _ => (false, rest)
      let d := (p.2.takeWhile Char.isDigit, p.2.dropWhile Char.isDigit)
      if d.1 ≠ [] ∧ d.2 = [] then
        some (if p.1 then -(digitsToNat d.1 : ℤ) else (digitsToNat d.1 : ℤ))
      else none
    else none

/-- Leading and trailing whitespace removed, as Python's string stripping
does before numeric conversion. -/
def stripChars (cs : List Char) : List Char :=
  ((cs.dropWhile Char.isWhitespace).reverse.dropWhile Char.isWhitespace).reverse

/-- Parsing of a finite decimal numeral by the `Decimal` constructor:
optional surrounding whitespace, optional sign, digits with an optional
point (at least one digit overall), optional exponent.  The special
`NaN`/`Infinity` literals, which no code path of the repository writes into
the cache, are outside the model. -/
def pyDecParse (s : String) : Option ℚ :=
  let cs := stripChars s.toList
  let p1 : Bool × List Char :=
    match cs with
    | '-' :: t => (true, t)
    | '+' :: t => (false, t)
    | _ => (false, cs)
  let ip := (p1.2.takeWhile Char.isDigit, p1.2.dropWhile Char.isDigit)
  let fp : List Char × List Char :=
    match ip.2 with
    | '.' :: t => (t.takeWhile Char.isDigit, t.dropWhile Char.isDigit)
    | _ => ([], ip.2)
  if ip.1 = [] ∧ fp.1 = [] then none
  else
    match parseExpPart fp.2 with
    | none => none
    | some e =>
      let mant : ℚ := (digitsToNat (ip.1 ++ fp.1) : ℚ) / 10 ^ fp.1.length
      let v := mant * (10 : ℚ) ^ (e : ℤ)
      some (if p1.1 then -v else v)

/-- The value stored by `RATES[code] = Decimal(str(value))` for a decoded
JSON `value` (source line 71): a string parses as a decimal numeral, a JSON
number round-trips through its decimal representation, and `str` of any
other decoded value (`None`, booleans, lists, dicts) is not a valid decimal
numeral, so the conversion raises and the entry is skipped. -/
def decOfJVal : JVal → Option ℚ
  | .str s => pyDecParse s
  | .num q => some q
  | _ => none

/-- One step of the entry loop of `_apply_cached_rates` (source lines
68-74): an entry updates the table and the counter exactly when its code is
supported and its value converts to a decimal; every failure is swallowed
by the per-entry `try`. -/
def applyStep (acc : Table × ℕ) (p : String × JVal) : Table × ℕ :=
  if p.1 ∈ SUPPORTED_LIST then
    match decOfJVal p.2 with
    | some q => (updTable acc.1 p.1 q, acc.2 + 1)
    | none => acc
  else acc

/-- The entry loop of `_apply_cached_rates` over the decoded `rates` dict. -/
def applyCached (tbl : Table) (rlist : List (String × JVal)) : Table × ℕ :=
  rlist.foldl applyStep (tbl, 0)

/-- Source `_apply_cached_rates` (lines 60-75).  Returns `none` for the
bare `return` paths (falsy cache, `rates` not a dict) and the applied-entry
count otherwise.  A truthy cache document that is not a dict raises
`AttributeError` at `cache.get("rates")`. -/
def apply_cached_rates (s : ProgState) : Except PyErr (Option ℕ × ProgState) :=
  match load_cache s.cacheFile with
  | none => .ok (none, s)
  | some v =>
    if pyTruthy v then
      match v with
      | .obj fields =>
        match (dictGet fields "rates").getD .null with
        | .obj rlist =>
          .ok (some (applyCached s.RATES rlist).2,
               { s with RATES := (applyCached s.RATES rlist).1 })
        | _ => .ok (none, s)
      | _ => .error .attributeError
    else .ok (none, s)

/-- Round-half-even of a rational to an integer, the rounding the decimal
context applies with its default `ROUND_HALF_EVEN` mode. -/
def rhe (x : ℚ) : ℤ :=
  if x - ⌊x⌋ < 1/2 then ⌊x⌋
  else if 1/2 < x - ⌊x⌋ then ⌊x⌋ + 1
  else if ⌊x⌋ % 2 = 0 then ⌊x⌋ else ⌊x⌋ + 1

/-- The exponent a 28-digit decimal context scales a nonzero rational by
before rounding its coefficient: `decExp q + 28` is the number `k` of
digits of `|q|`, the unique integer with `10 ^ (k - 1) ≤ |q| < 10 ^ k`,
computed from the digit counts of numerator and denominator. -/
def decExp (q : ℚ) : ℤ :=
  let n := q.num.natAbs
  let d := q.den
  let dn := Nat.log 10 n + 1
  let dd := Nat.log 10 d + 1
  let k : ℤ := if d * 10 ^ dn ≤ n * 10 ^ dd then (dn : ℤ) - dd + 1 else (dn : ℤ) - dd
  k - 28

/-- Rounding of an exact rational result to the working precision of the
source's decimal context: `getcontext().prec = 28` (source line 11) with
the default half-even rounding.  A result that is exactly representable in
28 significant digits is returned unchanged. -/
def decRound (q : ℚ) : ℚ :=
  if q = 0 then 0
  else (rhe (q * (10 : ℚ) ^ (-decExp q)) : ℚ) * (10 : ℚ) ^ decExp q

/-- Division of two decimal values: the exact quotient rounded to context
precision. -/
def decDiv (a b : ℚ) : ℚ := decRound (a / b)

/-- Multiplication of two decimal values: the exact product rounded to
context precision. -/
def decMul (a b : ℚ) : ℚ := decRound (a * b)

/-- Source `convertir` (lines 119-127).  Equal codes return the amount
untouched before any table access.  Otherwise the amount is divided by the
source rate and the quotient multiplied by the target rate, each step a
context-rounded decimal operation.  A missing table entry (`KeyError`) or a
zero divisor (`DivisionByZero`) is modelled as `none`. -/
def convertir (tbl : Table) (monto : ℚ) (desde hacia : String) : Option ℚ :=
  if desde = hacia then some monto
  else
    match tbl desde, tbl hacia with
    | some rf, some rt => if rf = 0 then none else some (decMul (decDiv monto rf) rt)
    | _, _ => none

/-- The coefficient in cents selected by
`valor.quantize(Decimal("0.01"), rounding=ROUND_HALF_UP)` (source lines
130-133): the magnitude is scaled by 100 and rounded to an integer, ties
going up, i.e. away from zero; the sign is reapplied afterwards. -/
def quantHalfUpCents (valor : ℚ) : ℤ :=
  let x := |valor| * 100
  let mag := if x - ⌊x⌋ < 1/2 then ⌊x⌋ else ⌊x⌋ + 1
  if valor < 0 then -mag else mag

/-- Decimal digits of `n`, zero-padded on the left to width 2, as `str` of
a two-fractional-digit `Decimal` prints them. -/
def pad2 (n : ℕ) : String :=
  if n < 10 then "0" ++ toString n else toString n

/-- Rendering of a quantity of cents the way `str` prints a `Decimal` with
exponent `-2`: optional sign, integer part, point, two fractional digits. -/
def centsToString (neg : Bool) (m : ℤ) : String :=
  (if neg then "-" else "") ++ toString (m.natAbs / 100) ++ "." ++ pad2 (m.natAbs % 100)

/-- Source `formatea` (lines 130-133): presentation rounding to two
fractional digits with `ROUND_HALF_UP`, rendered as `"<value> <code>"`. -/
def formatea (valor : ℚ) (code : String) : String :=
  centsToString (valor < 0) (quantHalfUpCents valor) ++ " " ++ code

/-- Truncation of a decimal value toward zero, as `int(Decimal(...))`
truncates. -/
def truncDiv (q : ℚ) : ℤ :=
  if 0 ≤ q.num then (q.num.toNat / q.den : ℕ)
  else -(((-q.num).toNat / q.den : ℕ) : ℤ)

/-- Python `int("...")`: optional whitespace, optional sign, decimal digits
only; anything else raises `ValueError`. -/
def pyIntParse (s : String) : Option ℤ :=
  let cs := stripChars s.toList
  let p1 : Bool × List Char :=
    match cs with
    | '-' :: t => (true, t)
    | '+' :: t => (false, t)
    | _ => (false, cs)
  let d := (p1.2.takeWhile Char.isDigit, p1.2.dropWhile Char.isDigit)
  if d.1 ≠ [] ∧ d.2 = [] then
    some (if p1.1 then -(digitsToNat d.1 : ℤ) else (digitsToNat d.1 : ℤ))
  else none

/-- Python `int(v)` on a decoded JSON value: numbers truncate toward zero,
`bool` counts as 0 or 1, strings must parse as an integer literal
(`ValueError` otherwise), and other types raise `TypeError`. -/
def pyInt (v : JVal) : Except PyErr ℤ :=
  match v with
  | .num q => .ok (truncDiv q)
  | .bool b => .ok (if b then 1 else 0)
  | .str s =>
    match pyIntParse s with
    | some n => .ok n
    | none => .error .valueError
  | _ => .error .typeError

/-- Outcome of the HTTP transport underneath `_fetch_rates_from_api`:
either a connectivity/timeout/HTTP failure (`urllib` raising), or a
response body that decoded to a JSON document. -/
inductive Transport where
  | netFail : Transport
  | resp (v : JVal) : Transport

/-- Decimal conversion of one fetched rate value (source lines 152-161):
numbers pass through, numeric strings are parsed via `Decimal(str(val))`,
`bool` survives the `isinstance` check as an `int` subclass (`True` is 1),
and everything else is skipped by the per-entry `continue`. -/
def fetchVal : JVal → Option ℚ
  | .num q => some q
  | .str s => pyDecParse s
  | .bool b => some (if b then 1 else 0)
  | _ => none

/-- Source `_fetch_rates_from_api` (lines 136-162).  A transport failure
raises; a response that is not a JSON object or lacks a `rates` field
raises `RuntimeError`; a non-object `rates` field raises at `.items()`.
All of these are caught by the caller, so they are collapsed into one
error.  On success the result dict seeds `USD → 1` and then adds every
convertible entry of the response's `rates` object. -/
def fetch_rates_from_api : Transport → Except Unit (List (String × ℚ))
  | .netFail => .error ()
  | .resp v =>
    match v with
    | .obj fields =>
      match dictGet fields "rates" with
      | some (.obj ritems) =>
        .ok (("USD", (1 : ℚ)) ::
          ritems.foldr (fun p acc =>
            match fetchVal p.2 with
            | some q => (p.1, q) :: acc
            | none => acc) [])
      | some _ => .error ()
      | none => .error ()
    | _ => .error ()

/-- Lookup in the fetched rate dict (`code in all_rates` / indexing); a
later binding shadows an earlier one. -/
def lookupQ (rates : List (String × ℚ)) (c : String) : Option ℚ :=
  rates.foldl (fun acc p => if p.1 = c then some p.2 else acc) none

/-- One step of the supported-code loop of `actualizar_tasas_api` (source
lines 186-189). -/
def fetchApplyStep (rates : List (String × ℚ)) (acc : Table × ℕ) (code : String) :
    Table × ℕ :=
  match lookupQ rates code with
  | some q => (updTable acc.1 code q, acc.2 + 1)
  | none => acc

/-- The supported-code loop of `actualizar_tasas_api`: every supported code
present in the fetched mapping overwrites the table entry, and the applied
entries are counted.  The source iterates the `SUPPORTED` set, whose
iteration order is irrelevant here because distinct keys are updated. -/
def applyFetched (tbl : Table) (rates : List (String × ℚ)) : Table × ℕ :=
  SUPPORTED_LIST.foldl (fetchApplyStep rates) (tbl, 0)

/-- Decimal digit counting with explicit fuel, structurally recursive. -/
def factorOutF : ℕ → ℕ → ℕ → ℕ × ℕ
  | 0, _, n => (0, n)
  | fuel + 1, p, n =>
    if 2 ≤ p ∧ p ∣ n ∧ n ≠ 0 then
      let r := factorOutF fuel p (n / p)
      (r.1 + 1, r.2)
    else (0, n)

/-- Largest power of `p` dividing `n` together with the cofactor. -/
def factorOut (p n : ℕ) : ℕ × ℕ := factorOutF n p n

/-- Canonical decimal rendering of a rational, modelling `str` of a
`Decimal` value: sign, then the coefficient with the point placed at the
smallest exponent that makes it integral.  `str(Decimal)` preserves the
stored exponent (so it may print extra trailing zeros) and falls back to
scientific notation at extreme exponents; this canonical form abstracts
from that, which no claim depends on.  Rationals that are not decimal
numbers cannot arise from decimal arithmetic and get a fraction fallback. -/
def decStr (q : ℚ) : String :=
  let sgn := if q < 0 then "-" else ""
  let f2 := factorOut 2 q.den
  let f5 := factorOut 5 f2.2
  if f5.2 = 1 then
    let e := max f2.1 f5.1
    let m := q.num.natAbs * (10 ^ e / q.den)
    if e = 0 then sgn ++ toString m
    else
      let ds := toString m
      let ds := if ds.length < e + 1 then
                  String.mk (List.replicate (e + 1 - ds.length) '0') ++ ds
                else ds
      sgn ++ (ds.toList.take (ds.toList.length - e)).asString ++ "." ++
        (ds.toList.drop (ds.toList.length - e)).asString
  else sgn ++ toString q.num.natAbs ++ "/" ++ toString q.den

/-- The `rates` object persisted on a successful refresh (source line 198):
`str` of every entry of the table.  The table's key set is always exactly
the eleven supported codes in their seeding order: it is seeded with them
and every write targets one of them. -/
def snapshot (tbl : Table) : JVal :=
  .obj (SUPPORTED_LIST.map fun k => (k, .str (decStr ((tbl k).getD 0))))

/-- The new cache document built and persisted on a successful refresh
(source lines 194-200). -/
def cacheData (now today : String) (nc : ℤ) (tbl : Table) : JVal :=
  .obj [("last_updated", .str now), ("day", .str today),
        ("fetch_count", .num (nc : ℚ)), ("rates", snapshot tbl)]

/-- The `cache` value after `_load_cache() or {}` (source line 170): the
decoded document when present and truthy, the empty dict otherwise. -/
def effectiveCache (cf : CacheFile) : JVal :=
  match load_cache cf with
  | none => .obj []
  | some v => if pyTruthy v then v else .obj []

/-- The quota guard of `actualizar_tasas_api` (source line 172):
`cache.get("day") == today and cache.get("fetch_count", 0) >= max`.  The
conjunction short-circuits, so the possibly raising comparison only runs
when the day matches. -/
def quotaCheck (fields : List (String × JVal)) (today : String) (m : ℤ) :
    Except PyErr Bool :=
  if jEqStr ((dictGet fields "day").getD .null) today then
    pyGE ((dictGet fields "fetch_count").getD (.num 0)) m
  else .ok false

/-- The persisted-count computation of `actualizar_tasas_api` (source lines
191-193): 1 on a new day, `int(fetch_count) + 1` when the cached day is
today. -/
def newCountE (fields : List (String × JVal)) (today : String) : Except PyErr ℤ :=
  if jEqStr ((dictGet fields "day").getD .null) today then
    (pyInt ((dictGet fields "fetch_count").getD (.num 0))).map (· + 1)
  else .ok 1

/-- Observable outcome of a refresh attempt, separating the source's two
`return False` paths by the message they print and carrying the update
count and the printed remaining quota of the success path (source lines
173, 178, 181, 202-204). -/
inductive RefreshOut where
  | quotaExceeded : RefreshOut
  | failed : RefreshOut
  | refreshed (updated : ℕ) (remaining : ℤ) : RefreshOut

/-- Success branch of `actualizar_tasas_api` (source lines 184-204): apply
the supported fetched rates to the table, compute the new count, persist
the rebuilt cache document, report the applied count and the remaining
quota. -/
def actualizarApply (s : ProgState) (fields : List (String × JVal))
    (today now : String) (rates : List (String × ℚ)) (m : ℤ) :
    Except PyErr (RefreshOut × ProgState) :=
  match newCountE fields today with
  | .error e => .error e
  | .ok nc =>
    .ok (.refreshed (applyFetched s.RATES rates).2 (max 0 (m - nc)),
         { RATES := (applyFetched s.RATES rates).1,
           cacheFile := .content (cacheData now today nc (applyFetched s.RATES rates).1) })

/-- Fetch stage of `actualizar_tasas_api` (source lines 175-182): any
exception from the fetch is caught and reported as a failed refresh with
the state untouched. -/
def actualizarFetch (s : ProgState) (fields : List (String × JVal))
    (today now : String) (tr : Transport) (m : ℤ) :
    Except PyErr (RefreshOut × ProgState) :=
  match fetch_rates_from_api tr with
  | .error _ => .ok (.failed, s)
  | .ok rates => actualizarApply s fields today now rates m

/-- Source `actualizar_tasas_api` (lines 165-204).  The loaded cache (or
`{}`) must be a dict for the `.get` calls to succeed; the quota guard may
itself raise on a malformed `fetch_count`; an exhausted quota returns
before the fetcher is consulted. -/
def actualizar_tasas_api (s : ProgState) (today now : String) (tr : Transport)
    (m : ℤ) : Except PyErr (RefreshOut × ProgState) :=
  match effectiveCache s.cacheFile with
  | .obj fields =>
    match quotaCheck fields today m with
    | .error e => .error e
    | .ok true => .ok (.quotaExceeded, s)
    | .ok false => actualizarFetch s fields today now tr m
  | _ => .error .attributeError

/-- Source `actualizar_tasa` (lines 207-223), the manual single-rate
override: the prompt loop only ever assigns a code already present in the
table and a value that parsed and passed the `val <= 0` rejection, and it
leaves the cache untouched.  A rejected attempt (`none`) changes nothing. -/
def actualizar_tasa (s : ProgState) (code : String) (val : ℚ) : Option ProgState :=
  if (s.RATES code).isSome ∧ 0 < val then
    some { s with RATES := updTable s.RATES code val }
  else none

/-- The remaining-quota computation of `listar_monedas` (source line 83),
on a well-typed record: `max(0, 2 - fetch_count) if day == today else 2`. -/
def remaining_today (day : Option String) (fetchCount : ℤ) (today : String) : ℤ :=
  if day = some today then max 0 (2 - fetchCount) else 2

/-- Source `convertir` as a state transformer: it reads the `RATES` global
and contains no assignment to it, no cache access, and no other effect. -/
def convertirST (s : ProgState) (monto : ℚ) (desde hacia : String) :
    Option ℚ × ProgState :=
  (convertir s.RATES monto desde hacia, s)

/-- Source `formatea` as a state transformer: it touches neither the
`RATES` global nor the cache. -/
def formateaST (s : ProgState) (valor : ℚ) (code : String) : String × ProgState :=
  (formatea valor code, s)

/-! ### Characterization of the cache-application fold -/

/-- An entry of a cached `rates` object counts as applied exactly when its
code is supported and its value converts to a decimal. -/
def pAppliedB (p : String × JVal) : Bool :=
  decide (p.1 ∈ SUPPORTED_LIST) && (decOfJVal p.2).isSome

/-- Pointwise residual of the cache-application fold at one code: the last
applied entry for that code wins, failing entries leave the previous value
in place. -/
def appliedValFrom (base : Option ℚ) (rlist : List (String × JVal)) (c : String) :
    Option ℚ :=
  rlist.foldl (fun acc p =>
    if p.1 ∈ SUPPORTED_LIST ∧ p.1 = c then
      match decOfJVal p.2 with
      | some q => some q
      | none => acc
    else acc) base

theorem applyStep_fst (tbl : Table) (n : ℕ) (p : String × JVal) (c : String) :
    (applyStep (tbl, n) p).1 c =
      (if p.1 ∈ SUPPORTED_LIST ∧ p.1 = c then
        match decOfJVal p.2 with
        | some q => some q
        | none => tbl c
      else tbl c) := by
  by_cases hp : p.1 ∈ SUPPORTED_LIST
  · cases hd : decOfJVal p.2 with
    | none => simp [applyStep, hp, hd]
    | some q =>
      by_cases hc : p.1 = c
      · subst hc; simp [applyStep, hp, hd, updTable]
      · have hc' : ¬ c = p.1 := fun h => hc h.symm
        simp [applyStep, hp, hd, hc, hc', updTable]
  · simp [applyStep, hp]

theorem applyStep_snd (tbl : Table) (n : ℕ) (p : String × JVal) :
    (applyStep (tbl, n) p).2 = n + (if pAppliedB p then 1 else 0) := by
  by_cases hp : p.1 ∈ SUPPORTED_LIST
  · cases hd : decOfJVal p.2 with
    | none => simp [applyStep, hp, hd, pAppliedB]
    | some q => simp [applyStep, hp, hd, pAppliedB]
  · simp [applyStep, hp, pAppliedB]

theorem applyCached_fold_char (rlist : List (String × JVal)) :
    ∀ (tbl : Table) (n : ℕ),
      (rlist.foldl applyStep (tbl, n)).2 = n + rlist.countP pAppliedB ∧
      ∀ c, (rlist.foldl applyStep (tbl, n)).1 c = appliedValFrom (tbl c) rlist c := by
  induction rlist with
  | nil => intro tbl n; simp [appliedValFrom]
  | cons p rest ih =>
    intro tbl n
    have hstep : rest.foldl applyStep (applyStep (tbl, n) p) =
        rest.foldl applyStep ((applyStep (tbl, n) p).1, (applyStep (tbl, n) p).2) := by
      rfl
    constructor
    · have h2 := (ih (applyStep (tbl, n) p).1 (applyStep (tbl, n) p).2).1
      rw [List.foldl_cons, hstep, h2, applyStep_snd, List.countP_cons]
      ring
    · intro c
      have h1 := (ih (applyStep (tbl, n) p).1 (applyStep (tbl, n) p).2).2 c
      rw [List.foldl_cons, hstep, h1, applyStep_fst]
      simp only [appliedValFrom, List.foldl_cons]

theorem applyCached_snd (tbl : Table) (rlist : List (String × JVal)) :
    (applyCached tbl rlist).2 = rlist.countP pAppliedB := by
  have := (applyCached_fold_char rlist tbl 0).1
  simpa [applyCached] using this

theorem applyCached_fst (tbl : Table) (rlist : List (String × JVal)) (c : String) :
    (applyCached tbl rlist).1 c = appliedValFrom (tbl c) rlist c :=
  (applyCached_fold_char rlist tbl 0).2 c

/-- C4 (amended): applying a cached record treats entries independently —
each `(code, value)` entry updates the table exactly when `code` is
supported and `value` converts to a decimal (of any sign: the source has no
positivity check at this assignment); all other entries are skipped
silently, no malformed entry raises, and the returned count is the number
of entries applied. -/
theorem spec_C4_apply_entrywise (s : ProgState) (fields : List (String × JVal))
    (rlist : List (String × JVal))
    (hcf : s.cacheFile = .content (.obj fields)) (hne : fields ≠ [])
    (hrates : (dictGet fields "rates").getD .null = .obj rlist) :
    apply_cached_rates s =
      .ok (some (rlist.countP pAppliedB), { s with RATES := (applyCached s.RATES rlist).1 }) ∧
    ∀ c, (applyCached s.RATES rlist).1 c = appliedValFrom (s.RATES c) rlist c := by
  constructor
  · have htruthy : pyTruthy (.obj fields) = true := by
      cases fields with
      | nil => exact absurd rfl hne
      | cons a t => rfl
    simp [apply_cached_rates, hcf, load_cache, htruthy, hrates, applyCached_snd]
  · intro c; exact applyCached_fst s.RATES rlist c

/-- Witness for C4's amended theorem at the corruption-tolerance example of
the claim: rates `{"USD": "not-a-number", "EUR": "0.9"}` on the default
table apply exactly the EUR entry, report `1`, and raise nothing. -/
theorem spec_C4_apply_entrywise_witness :
    (apply_cached_rates
        ⟨RATES0, .content (.obj [("rates",
          .obj [("USD", .str "not-a-number"), ("EUR", .str "0.9")])])⟩).map
        (fun r => (r.1, r.2.RATES "EUR", r.2.RATES "USD")) =
      .ok (some 1, some (9/10), some 1) := by
  have h := spec_C4_apply_entrywise
    ⟨RATES0, .content (.obj [("rates",
      .obj [("USD", .str "not-a-number"), ("EUR", .str "0.9")])])⟩
    [("rates", .obj [("USD", .str "not-a-number"), ("EUR", .str "0.9")])]
    [("USD", .str "not-a-number"), ("EUR", .str "0.9")]
    rfl (by simp) (by simp [dictGet])
  rw [h.1]
  have hparse9 : pyDecParse "0.9" = some (9/10) := by
    simp [pyDecParse, stripChars, parseExpPart, digitsToNat]
  have hparseN : pyDecParse "not-a-number" = none := by
    simp [pyDecParse, stripChars, parseExpPart, digitsToNat]
  simp only [Except.map, applyCached_fst]
  simp [appliedValFrom, decOfJVal, hparse9, hparseN, SUPPORTED_LIST, pAppliedB,
    RATES0]

/-- Counterexample to C4 as stated: the claim requires an entry to be
applied only if its value parses to a *positive* decimal, but the source
stores any parsed value — rates `{"EUR": "-1"}` applies the entry, sets the
table value to `-1`, and reports one applied entry, where the claim demands
the entry be skipped. -/
theorem spec_C4_counterexample :
    (apply_cached_rates ⟨RATES0, .content (.obj [("rates", .obj [("EUR", .str "-1")])])⟩).map
        (fun r => (r.1, r.2.RATES "EUR")) = .ok (some 1, some (-1)) ∧
    ¬ (0 < (-1 : ℚ)) := by
  constructor
  · have hparse : pyDecParse "-1" = some (-1) := by
      simp [pyDecParse, stripChars, parseExpPart, digitsToNat]
    simp [apply_cached_rates, load_cache, pyTruthy, dictGet, applyCached, applyStep,
      decOfJVal, hparse, SUPPORTED_LIST, updTable, pAppliedB, Except.map]
  · norm_num

/-! ### Characterization of the fetched-rates fold -/

theorem fetchFold_snd (R : List (String × ℚ)) :
    ∀ (L : List String) (tbl : Table) (n : ℕ),
      (L.foldl (fetchApplyStep R) (tbl, n)).2 =
        n + L.countP (fun c => (lookupQ R c).isSome) := by
  intro L
  induction L with
  | nil => intro tbl n; simp
  | cons k rest ih =>
    intro tbl n
    rw [List.foldl_cons, List.countP_cons]
    cases hk : lookupQ R k with
    | none =>
      have : fetchApplyStep R (tbl, n) k = (tbl, n) := by simp [fetchApplyStep, hk]
      rw [this, ih] <;> simp <;> omega
    | some q =>
      have : fetchApplyStep R (tbl, n) k = (updTable tbl k q, n + 1) := by
        simp [fetchApplyStep, hk]
      rw [this, ih] <;> simp <;> omega

theorem fetchFold_fst_not_mem (R : List (String × ℚ)) :
    ∀ (L : List String) (tbl : Table) (n : ℕ) (c : String), c ∉ L →
      (L.foldl (fetchApplyStep R) (tbl, n)).1 c = tbl c := by
  intro L
  induction L with
  | nil => intro tbl n c _; simp
  | cons k rest ih =>
    intro tbl n c hc
    have hck : c ≠ k := fun h => hc (h ▸ List.mem_cons_self k rest)
    have hcr : c ∉ rest := fun h => hc (List.mem_cons_of_mem k h)
    rw [List.foldl_cons]
    cases hk : lookupQ R k with
    | none =>
      have : fetchApplyStep R (tbl, n) k = (tbl, n) := by simp [fetchApplyStep, hk]
      rw [this, ih tbl n c hcr]
    | some q =>
      have : fetchApplyStep R (tbl, n) k = (updTable tbl k q, n + 1) := by
        simp [fetchApplyStep, hk]
      rw [this, ih (updTable tbl k q) (n + 1) c hcr]
      simp [updTable, hck]

theorem fetchFold_fst_mem (R : List (String × ℚ)) :
    ∀ (L : List String) (tbl : Table) (n : ℕ) (c : String), L.Nodup → c ∈ L →
      (L.foldl (fetchApplyStep R) (tbl, n)).1 c =
        (match lookupQ R c with
         | some q => some q
         | none => tbl c) := by
  intro L
  induction L with
  | nil => intro tbl n c _ hc; exact absurd hc (List.not_mem_nil c)
  | cons k rest ih =>
    intro tbl n c hnd hc
    rw [List.foldl_cons]
    by_cases hck : c = k
    · subst hck
      have hcr : c ∉ rest := (List.nodup_cons.mp hnd).1
      cases hk : lookupQ R c with
      | none =>
        have : fetchApplyStep R (tbl, n) c = (tbl, n) := by simp [fetchApplyStep, hk]
        rw [this, fetchFold_fst_not_mem R rest tbl n c hcr]
      | some q =>
        have : fetchApplyStep R (tbl, n) c = (updTable tbl c q, n + 1) := by
          simp [fetchApplyStep, hk]
        rw [this, fetchFold_fst_not_mem R rest (updTable tbl c q) (n + 1) c hcr]
        simp [updTable]
    · have hcr : c ∈ rest := (List.mem_cons.mp hc).resolve_left hck
      have hnd' : rest.Nodup := (List.nodup_cons.mp hnd).2
      cases hk : lookupQ R k with
      | none =>
        have : fetchApplyStep R (tbl, n) k = (tbl, n) := by simp [fetchApplyStep, hk]
        rw [this, ih tbl n c hnd' hcr]
      | some q =>
        have : fetchApplyStep R (tbl, n) k = (updTable tbl k q, n + 1) := by
          simp [fetchApplyStep, hk]
        rw [this, ih (updTable tbl k q) (n + 1) c hnd' hcr]
        simp [updTable, hck]

theorem supported_nodup : SUPPORTED_LIST.Nodup := by decide

theorem applyFetched_snd (tbl : Table) (R : List (String × ℚ)) :
    (applyFetched tbl R).2 = SUPPORTED_LIST.countP (fun c => (lookupQ R c).isSome) := by
  have := fetchFold_snd R SUPPORTED_LIST tbl 0
  simpa [applyFetched] using this

theorem applyFetched_fst_mem (tbl : Table) (R : List (String × ℚ)) (c : String)
    (hc : c ∈ SUPPORTED_LIST) :
    (applyFetched tbl R).1 c =
      (match lookupQ R c with
       | some q => some q
       | none => tbl c) :=
  fetchFold_fst_mem R SUPPORTED_LIST tbl 0 c supported_nodup hc

theorem applyFetched_fst_not_mem (tbl : Table) (R : List (String × ℚ)) (c : String)
    (hc : c ∉ SUPPORTED_LIST) :
    (applyFetched tbl R).1 c = tbl c :=
  fetchFold_fst_not_mem R SUPPORTED_LIST tbl 0 c hc

/-! ### C1: quota exhaustion -/

/-- C1: `remaining_today` is `max(0, 2 - fetch_count)` when the record's
day is today (zero exactly when two fetches are already consumed) and 2
otherwise — a past day counts as zero fetches consumed — and when it is
zero, a refresh returns the quota outcome for every transport, i.e. without
consulting the fetcher, and leaves the whole state (rate table and cache)
unchanged. -/
theorem spec_C1_quota_exceeded (s : ProgState) (fields : List (String × JVal))
    (d today now : String) (n : ℤ)
    (heff : effectiveCache s.cacheFile = .obj fields)
    (hday : (dictGet fields "day").getD .null = .str d)
    (hfc : (dictGet fields "fetch_count").getD (.num 0) = .num ((n : ℤ) : ℚ)) :
    (remaining_today (some d) n today = 0 ↔ (d = today ∧ 2 ≤ n)) ∧
    (d ≠ today → remaining_today (some d) n today = 2) ∧
    (remaining_today (some d) n today = 0 →
      ∀ tr, actualizar_tasas_api s today now tr 2 = .ok (.quotaExceeded, s)) := by
  have hchar : remaining_today (some d) n today = 0 ↔ (d = today ∧ 2 ≤ n) := by
    by_cases hd : d = today
    · simp [remaining_today, hd] <;> omega
    · simp [remaining_today, hd]
  refine ⟨hchar, fun hd => by simp [remaining_today, hd], fun hrem tr => ?_⟩
  obtain ⟨hd, h2n⟩ := hchar.mp hrem
  subst hd
  have hQC : quotaCheck fields d 2 = .ok true := by
    rw [quotaCheck, hday, hfc]
    simp [jEqStr, pyGE]
    exact_mod_cast h2n
  simp [actualizar_tasas_api, heff, hQC]

/-- Witness for C1 at the record `{day: today, fetch_count: 2}` of the
spec's quota test: remaining is 0 and a refresh is quota-blocked on both a
failing and a succeeding transport, without touching the state. -/
theorem spec_C1_quota_exceeded_witness :
    remaining_today (some "2025-01-02") 2 "2025-01-02" = 0 ∧
    (actualizar_tasas_api
        ⟨RATES0, .content (.obj [("day", .str "2025-01-02"), ("fetch_count", .num 2)])⟩
        "2025-01-02" "TS" .netFail 2 =
      .ok (.quotaExceeded,
        ⟨RATES0, .content (.obj [("day", .str "2025-01-02"), ("fetch_count", .num 2)])⟩)) ∧
    (actualizar_tasas_api
        ⟨RATES0, .content (.obj [("day", .str "2025-01-02"), ("fetch_count", .num 2)])⟩
        "2025-01-02" "TS" (.resp (.obj [("rates", .obj [("MXN", .num 21)])])) 2 =
      .ok (.quotaExceeded,
        ⟨RATES0, .content (.obj [("day", .str "2025-01-02"), ("fetch_count", .num 2)])⟩)) := by
  have h := spec_C1_quota_exceeded
    ⟨RATES0, .content (.obj [("day", .str "2025-01-02"), ("fetch_count", .num 2)])⟩
    [("day", .str "2025-01-02"), ("fetch_count", .num 2)]
    "2025-01-02" "2025-01-02" "TS" 2
    (by simp [effectiveCache, load_cache, pyTruthy])
    (by simp [dictGet])
    (by simp [dictGet] <;> norm_num)
  have hrem : remaining_today (some "2025-01-02") 2 "2025-01-02" = 0 :=
    h.1.mpr ⟨rfl, le_refl 2⟩
  exact ⟨hrem, h.2.2 hrem .netFail, h.2.2 hrem (.resp (.obj [("rates", .obj [("MXN", .num 21)])]))⟩

/-! ### C3: failed fetch -/

/-- C3: when the quota guard passes but the remote fetch fails — network
failure, or a format failure such as a non-object response or a response
without a `rates` collection — the refresh reports failure and returns the
state exactly as it was: neither the rate table nor the cache record is
touched, partially or otherwise. -/
theorem spec_C3_fetch_failure (s : ProgState) (fields : List (String × JVal))
    (today now : String) (tr : Transport)
    (heff : effectiveCache s.cacheFile = .obj fields)
    (hqc : quotaCheck fields today 2 = .ok false)
    (hfail : fetch_rates_from_api tr = .error ()) :
    actualizar_tasas_api s today now tr 2 = .ok (.failed, s) ∧
    fetch_rates_from_api .netFail = .error () ∧
    (∀ t, fetch_rates_from_api (.resp (.str t)) = .error ()) ∧
    (∀ fl, dictGet fl "rates" = none → fetch_rates_from_api (.resp (.obj fl)) = .error ()) := by
  refine ⟨?_, rfl, fun t => rfl, fun fl hfl => ?_⟩
  · simp [actualizar_tasas_api, heff, hqc, actualizarFetch, hfail]
  · simp [fetch_rates_from_api, hfl]

/-- Witness for C3: on a missing cache, a network failure leaves the whole
state unchanged and reports a failed refresh. -/
theorem spec_C3_fetch_failure_witness :
    actualizar_tasas_api ⟨RATES0, .missing⟩ "2025-01-02" "TS" .netFail 2 =
      .ok (.failed, ⟨RATES0, .missing⟩) :=
  (spec_C3_fetch_failure ⟨RATES0, .missing⟩ [] "2025-01-02" "TS" .netFail
    (by simp [effectiveCache, load_cache])
    (by simp [quotaCheck, dictGet, jEqStr])
    rfl).1

/-! ### C2: successful refresh -/

theorem truncDiv_intCast (n : ℤ) : truncDiv ((n : ℤ) : ℚ) = n := by
  unfold truncDiv
  rw [Rat.num_intCast, Rat.den_intCast]
  split_ifs with h <;> simp [Nat.div_one] <;> omega

theorem pyInt_intCast (n : ℤ) : pyInt (.num ((n : ℤ) : ℚ)) = .ok n := by
  simp [pyInt, truncDiv_intCast]

/-- C2: when the quota is not exhausted and the fetch succeeds, the refresh
overwrites the cache with a fresh record carrying `day = today`,
`fetch_count` equal to the cached count plus one when the cached day is
today and 1 otherwise, `last_updated` set to the current timestamp, and
`rates` a stringified snapshot of the updated table over the supported
codes; it reports the number of supported fetched codes applied and a
remaining quota of `max(0, max_per_day - fetch_count)`; and the table gains
exactly the supported fetched values, every other entry untouched. -/
theorem spec_C2_refresh_success (s : ProgState) (fields : List (String × JVal))
    (today now : String) (tr : Transport) (R : List (String × ℚ)) (n : ℤ)
    (heff : effectiveCache s.cacheFile = .obj fields)
    (hfc : (dictGet fields "fetch_count").getD (.num 0) = .num ((n : ℤ) : ℚ))
    (hquota : ¬ (jEqStr ((dictGet fields "day").getD .null) today = true ∧ 2 ≤ n))
    (hfetch : fetch_rates_from_api tr = .ok R) :
    actualizar_tasas_api s today now tr 2 =
      .ok (.refreshed (SUPPORTED_LIST.countP fun c => (lookupQ R c).isSome)
             (max 0 (2 - (if jEqStr ((dictGet fields "day").getD .null) today then n + 1 else 1))),
           { RATES := (applyFetched s.RATES R).1,
             cacheFile := .content (cacheData now today
               (if jEqStr ((dictGet fields "day").getD .null) today then n + 1 else 1)
               (applyFetched s.RATES R).1) }) ∧
    (∀ c ∈ SUPPORTED_LIST, ∀ q, lookupQ R c = some q → (applyFetched s.RATES R).1 c = some q) ∧
    (∀ c ∈ SUPPORTED_LIST, lookupQ R c = none → (applyFetched s.RATES R).1 c = s.RATES c) ∧
    (∀ c, c ∉ SUPPORTED_LIST → (applyFetched s.RATES R).1 c = s.RATES c) := by
  have hQC : quotaCheck fields today 2 = .ok false := by
    rw [quotaCheck]
    by_cases hbv : jEqStr ((dictGet fields "day").getD .null) today = true
    · rw [if_pos hbv, hfc]
      have hn : ¬ ((2 : ℤ) ≤ n) := fun h => hquota ⟨hbv, h⟩
      have hn' : ¬ ((2 : ℚ) ≤ ((n : ℤ) : ℚ)) := by exact_mod_cast hn
      simp [pyGE, hn']
    · rw [if_neg hbv]
  have hNC : newCountE fields today =
      .ok (if jEqStr ((dictGet fields "day").getD .null) today then n + 1 else 1) := by
    rw [newCountE]
    by_cases hbv : jEqStr ((dictGet fields "day").getD .null) today = true
    · rw [if_pos hbv, if_pos hbv, hfc, pyInt_intCast]
      rfl
    · rw [if_neg hbv, if_neg hbv]
  refine ⟨?_, ?_, ?_, ?_⟩
  · simp [actualizar_tasas_api, heff, hQC, actualizarFetch, hfetch, actualizarApply,
      hNC, applyFetched_snd]
  · intro c hc q hq
    rw [applyFetched_fst_mem s.RATES R c hc, hq]
  · intro c hc hq
    rw [applyFetched_fst_mem s.RATES R c hc, hq]
  · intro c hc
    exact applyFetched_fst_not_mem s.RATES R c hc

/-- Witness for C2 at the end-to-end example of the claim: a fresh (absent)
cache and a fetcher returning `{"USD": 1, "MXN": 20}` produce a persisted
`fetch_count` of 1, a reported remaining quota of 1, two applied codes, and
a table entry of 20 for MXN. -/
theorem spec_C2_refresh_success_witness :
    (actualizar_tasas_api ⟨RATES0, .missing⟩ "2025-01-02" "TS"
        (.resp (.obj [("rates", .obj [("USD", .num 1), ("MXN", .num 20)])])) 2 =
      .ok (.refreshed 2 1,
           { RATES := (applyFetched RATES0 [("USD", 1), ("USD", 1), ("MXN", 20)]).1,
             cacheFile := .content (cacheData "TS" "2025-01-02" 1
               (applyFetched RATES0 [("USD", 1), ("USD", 1), ("MXN", 20)]).1) })) ∧
    (applyFetched RATES0 [("USD", 1), ("USD", 1), ("MXN", 20)]).1 "MXN" = some 20 ∧
    (applyFetched RATES0 [("USD", 1), ("USD", 1), ("MXN", 20)]).1 "EUR" = RATES0 "EUR" := by
  have h := spec_C2_refresh_success ⟨RATES0, .missing⟩ [] "2025-01-02" "TS"
    (.resp (.obj [("rates", .obj [("USD", .num 1), ("MXN", .num 20)])]))
    [("USD", 1), ("USD", 1), ("MXN", 20)] 0
    (by simp [effectiveCache, load_cache])
    (by simp [dictGet])
    (by simp [dictGet, jEqStr])
    (by simp [fetch_rates_from_api, dictGet, fetchVal])
  refine ⟨?_, ?_, ?_⟩
  · have h1 := h.1
    have hcount : (SUPPORTED_LIST.countP
        fun c => (lookupQ [("USD", 1), ("USD", 1), ("MXN", 20)] c).isSome) = 2 := by
      simp [SUPPORTED_LIST, lookupQ]
    rw [hcount] at h1
    simpa [dictGet, jEqStr] using h1
  · exact h.2.1 "MXN" (by simp [SUPPORTED_LIST]) 20 (by simp [lookupQ])
  · exact h.2.2.1 "EUR" (by simp [SUPPORTED_LIST]) (by simp [lookupQ])

/-! ### C5: table invariants -/

theorem appliedValFrom_isSome (rlist : List (String × JVal)) :
    ∀ (base : Option ℚ) (c : String), base.isSome →
      (appliedValFrom base rlist c).isSome := by
  induction rlist with
  | nil => intro base c h; simpa [appliedValFrom] using h
  | cons p rest ih =>
    intro base c h
    rw [appliedValFrom, List.foldl_cons]
    by_cases hp : p.1 ∈ SUPPORTED_LIST ∧ p.1 = c
    · rw [if_pos hp]
      cases hd : decOfJVal p.2 with
      | none => exact ih base c h
      | some q => exact ih (some q) c rfl
    · rw [if_neg hp]
      exact ih base c h

theorem applyCached_isSome (tbl : Table) (rlist : List (String × JVal)) (c : String)
    (h : (tbl c).isSome) : ((applyCached tbl rlist).1 c).isSome := by
  rw [applyCached_fst]
  exact appliedValFrom_isSome rlist (tbl c) c h

theorem applyFetched_isSome (tbl : Table) (R : List (String × ℚ)) (c : String)
    (h : (tbl c).isSome) : ((applyFetched tbl R).1 c).isSome := by
  by_cases hc : c ∈ SUPPORTED_LIST
  · rw [applyFetched_fst_mem tbl R c hc]
    cases hk : lookupQ R c with
    | none => exact h
    | some q => rfl
  · rw [applyFetched_fst_not_mem tbl R c hc]
    exact h

theorem apply_cached_rates_table (s : ProgState) (r : Option ℕ) (s' : ProgState)
    (h : apply_cached_rates s = .ok (r, s')) :
    s'.RATES = s.RATES ∨ ∃ rlist, s'.RATES = (applyCached s.RATES rlist).1 := by
  unfold apply_cached_rates at h
  split at h
  · simp only [Except.ok.injEq, Prod.mk.injEq] at h
    exact Or.inl (by rw [← h.2])
  · split at h
    · split at h
      · split at h
        · simp only [Except.ok.injEq, Prod.mk.injEq] at h
          exact Or.inr ⟨_, by rw [← h.2]⟩
        · simp only [Except.ok.injEq, Prod.mk.injEq] at h
          exact Or.inl (by rw [← h.2])
      · exact absurd h (by simp)
    · simp only [Except.ok.injEq, Prod.mk.injEq] at h
      exact Or.inl (by rw [← h.2])

theorem actualizar_table (s : ProgState) (today now : String) (tr : Transport)
    (m : ℤ) (out : RefreshOut) (s' : ProgState)
    (h : actualizar_tasas_api s today now tr m = .ok (out, s')) :
    s'.RATES = s.RATES ∨ ∃ R, s'.RATES = (applyFetched s.RATES R).1 := by
  unfold actualizar_tasas_api at h
  split at h
  · split at h
    · exact absurd h (by simp)
    · simp only [Except.ok.injEq, Prod.mk.injEq] at h
      exact Or.inl (by rw [← h.2])
    · unfold actualizarFetch at h
      split at h
      · simp only [Except.ok.injEq, Prod.mk.injEq] at h
        exact Or.inl (by rw [← h.2])
      · unfold actualizarApply at h
        split at h
        · exact absurd h (by simp)
        · simp only [Except.ok.injEq, Prod.mk.injEq] at h
          exact Or.inr ⟨_, by rw [← h.2]⟩
  · exact absurd h (by simp)

/-- C5 (amended): every operation on the table — startup cache application,
quota-gated refresh, manual override — only ever overwrites entries, never
removes one, so all eleven supported codes stay present from their positive
seeding onward; but strict positivity is enforced only by the manual
override, which rejects a non-positive value at the point of assignment:
cache application and remote refresh store whatever decimal arrives,
including non-positive ones. -/
theorem spec_C5_presence (s₁ s₂ s₃ : ProgState) (r : Option ℕ)
    (out : RefreshOut) (s₁' s₂' s₃' : ProgState) (today now : String)
    (tr : Transport) (m : ℤ) (code : String) (v : ℚ)
    (h₁ : apply_cached_rates s₁ = .ok (r, s₁'))
    (h₂ : actualizar_tasas_api s₂ today now tr m = .ok (out, s₂'))
    (h₃ : actualizar_tasa s₃ code v = some s₃') :
    (∀ c ∈ SUPPORTED_LIST, ∃ q, RATES0 c = some q ∧ 0 < q) ∧
    (∀ c, (s₁.RATES c).isSome → (s₁'.RATES c).isSome) ∧
    (∀ c, (s₂.RATES c).isSome → (s₂'.RATES c).isSome) ∧
    (0 < v ∧ (∀ c, (s₃.RATES c).isSome → (s₃'.RATES c).isSome) ∧
      ((∀ c q, s₃.RATES c = some q → 0 < q) → ∀ c q, s₃'.RATES c = some q → 0 < q)) := by
  have hup : actualizar_tasa s₃ code v = some s₃' → (s₃.RATES code).isSome ∧ 0 < v ∧
      s₃' = { s₃ with RATES := updTable s₃.RATES code v } := by
    intro h
    unfold actualizar_tasa at h
    split at h
    · rename_i hcond
      exact ⟨hcond.1, hcond.2, (Option.some.injEq _ _ ▸ h).symm⟩
    · exact absurd h (by simp)
  obtain ⟨hpres, hv, rfl⟩ := hup h₃
  refine ⟨?_, ?_, ?_, hv, ?_, ?_⟩
  · intro c hc
    fin_cases hc <;> exact ⟨_, rfl, by norm_num⟩
  · intro c hc
    rcases apply_cached_rates_table s₁ r s₁' h₁ with he | ⟨rlist, he⟩
    · rw [he]; exact hc
    · rw [he]; exact applyCached_isSome s₁.RATES rlist c hc
  · intro c hc
    rcases actualizar_table s₂ today now tr m out s₂' h₂ with he | ⟨R, he⟩
    · rw [he]; exact hc
    · rw [he]; exact applyFetched_isSome s₂.RATES R c hc
  · intro c hc
    simp only [updTable]
    by_cases hcc : c = code <;> simp [hcc, hc]
  · intro hpos c q hq
    simp only [updTable] at hq
    by_cases hcc : c = code
    · rw [if_pos hcc] at hq
      exact (Option.some.injEq _ _ ▸ hq) ▸ hv
    · rw [if_neg hcc] at hq
      exact hpos c q hq

/-- Witness for C5's amended theorem: a run of each of the three
operations on the default table. -/
theorem spec_C5_presence_witness :
    (∀ c ∈ SUPPORTED_LIST, ∃ q, RATES0 c = some q ∧ 0 < q) ∧
    ((⟨RATES0, .missing⟩ : ProgState).RATES "MXN").isSome = true := by
  have happly : apply_cached_rates ⟨RATES0, .content (.obj [("rates", .obj [])])⟩ =
      .ok (some 0, ⟨RATES0, .content (.obj [("rates", .obj [])])⟩) := by
    simp [apply_cached_rates, load_cache, pyTruthy, dictGet, applyCached]
  have hrefresh : actualizar_tasas_api ⟨RATES0, .missing⟩ "2025-07-07" "TS" .netFail 2 =
      .ok (.failed, ⟨RATES0, .missing⟩) := by
    simp [actualizar_tasas_api, effectiveCache, load_cache, quotaCheck, dictGet,
      jEqStr, actualizarFetch, fetch_rates_from_api]
  have hmanual : actualizar_tasa ⟨RATES0, .missing⟩ "EUR" 2 =
      some ⟨updTable RATES0 "EUR" 2, .missing⟩ := by
    simp [actualizar_tasa, RATES0]
  have h := spec_C5_presence ⟨RATES0, .content (.obj [("rates", .obj [])])⟩
    ⟨RATES0, .missing⟩ ⟨RATES0, .missing⟩ (some 0) .failed
    ⟨RATES0, .content (.obj [("rates", .obj [])])⟩ ⟨RATES0, .missing⟩
    ⟨updTable RATES0 "EUR" 2, .missing⟩ "2025-07-07" "TS" .netFail 2 "EUR" 2
    happly hrefresh hmanual
  exact ⟨h.1, h.2.2.1 "MXN" (by simp [RATES0])⟩

/-- Counterexample to C5 as stated: a quota-gated remote refresh stores a
fetched non-positive value instead of rejecting it — fetch rates
`{"MXN": -5}` leave the table with `-5` for MXN. -/
theorem spec_C5_counterexample :
    (actualizar_tasas_api ⟨RATES0, .missing⟩ "2025-03-01" "TS"
        (.resp (.obj [("rates", .obj [("MXN", .num (-5))])])) 2).map
        (fun p => p.2.RATES "MXN") = .ok (some (-5)) ∧
    ¬ (0 < (-5 : ℚ)) := by
  constructor
  · have h := spec_C2_refresh_success ⟨RATES0, .missing⟩ [] "2025-03-01" "TS"
      (.resp (.obj [("rates", .obj [("MXN", .num (-5))])]))
      [("USD", 1), ("MXN", -5)] 0
      (by simp [effectiveCache, load_cache])
      (by simp [dictGet])
      (by simp [dictGet, jEqStr])
      (by simp [fetch_rates_from_api, dictGet, fetchVal])
    rw [h.1]
    have hmxn := h.2.1 "MXN" (by simp [SUPPORTED_LIST]) (-5) (by simp [lookupQ])
    simp [Except.map, hmxn]
  · norm_num

/-! ### C6: which cache contents are survivable -/

/-- A decoded JSON value on which the `int(...) + 1` / `>= max` bookkeeping
of the refresh path is defined: a number or a boolean. -/
def numOrBool (v : JVal) : Prop := (∃ q, v = .num q) ∨ (∃ b, v = .bool b)

/-- C6 (amended): loading never raises — a missing or unparsable file
degrades to absent — and startup cache application and refresh complete
without an exception *provided* any truthy persisted document is a JSON
object and, on the refresh path, its `fetch_count` is a number or boolean
whenever its `day` equals today.  (As stated, the claim is false: outside
this proviso both operations can raise, see the counterexample.) -/
theorem spec_C6_no_fatal_amended (s₁ s₂ : ProgState) (fields : List (String × JVal))
    (today now : String) (tr : Transport) (m : ℤ)
    (h₁ : ∀ v, load_cache s₁.cacheFile = some v → pyTruthy v = true → ∃ fl, v = .obj fl)
    (heff : effectiveCache s₂.cacheFile = .obj fields)
    (hfc : jEqStr ((dictGet fields "day").getD .null) today = true →
      numOrBool ((dictGet fields "fetch_count").getD (.num 0))) :
    (load_cache .missing = none ∧ load_cache .unparsable = none) ∧
    (∃ r s', apply_cached_rates s₁ = .ok (r, s')) ∧
    (∃ out s', actualizar_tasas_api s₂ today now tr m = .ok (out, s')) := by
  refine ⟨⟨rfl, rfl⟩, ?_, ?_⟩
  · unfold apply_cached_rates
    cases hl : load_cache s₁.cacheFile with
    | none => exact ⟨none, s₁, rfl⟩
    | some v =>
      simp only []
      by_cases ht : pyTruthy v = true
      · obtain ⟨fl, rfl⟩ := h₁ v hl ht
        rw [if_pos ht]
        simp only []
        cases hr : (dictGet fl "rates").getD .null with
        | obj rlist => exact ⟨_, _, rfl⟩
        | null => exact ⟨none, s₁, rfl⟩
        | bool b => exact ⟨none, s₁, rfl⟩
        | num q => exact ⟨none, s₁, rfl⟩
        | str t => exact ⟨none, s₁, rfl⟩
        | arr xs => exact ⟨none, s₁, rfl⟩
      · exact ⟨none, s₁, by rw [if_neg ht]⟩
  · have hguard : ∃ b, quotaCheck fields today m = .ok b := by
      unfold quotaCheck
      by_cases hd : jEqStr ((dictGet fields "day").getD .null) today = true
      · rw [if_pos hd]
        rcases hfc hd with ⟨q, hq⟩ | ⟨b, hb⟩
        · rw [hq]; exact ⟨_, rfl⟩
        · rw [hb]; exact ⟨_, rfl⟩
      · rw [if_neg hd]; exact ⟨false, rfl⟩
    have hnc : ∃ nc, newCountE fields today = .ok nc := by
      unfold newCountE
      by_cases hd : jEqStr ((dictGet fields "day").getD .null) today = true
      · rw [if_pos hd]
        rcases hfc hd with ⟨q, hq⟩ | ⟨b, hb⟩
        · rw [hq]; exact ⟨_, rfl⟩
        · rw [hb]; exact ⟨_, rfl⟩
      · rw [if_neg hd]; exact ⟨1, rfl⟩
    obtain ⟨b, hb⟩ := hguard
    unfold actualizar_tasas_api
    rw [heff]
    simp only []
    rw [hb]
    cases b with
    | true => exact ⟨.quotaExceeded, s₂, rfl⟩
    | false =>
      unfold actualizarFetch
      cases hf : fetch_rates_from_api tr with
      | error e => exact ⟨.failed, s₂, rfl⟩
      | ok R =>
        obtain ⟨nc, hncv⟩ := hnc
        unfold actualizarApply
        rw [hncv]
        exact ⟨_, _, rfl⟩

/-- Witness for C6's amended theorem: a missing cache survives both the
startup application and a refresh attempt under any fetch outcome. -/
theorem spec_C6_no_fatal_amended_witness :
    (load_cache .missing = none ∧ load_cache .unparsable = none) ∧
    (∃ r s', apply_cached_rates ⟨RATES0, .missing⟩ = .ok (r, s')) ∧
    (∃ out s', actualizar_tasas_api ⟨RATES0, .missing⟩ "2025-01-02" "TS" .netFail 2 =
      .ok (out, s')) :=
  spec_C6_no_fatal_amended ⟨RATES0, .missing⟩ ⟨RATES0, .missing⟩ []
    "2025-01-02" "TS" .netFail 2
    (by intro v hv _; cases hv)
    (by simp [effectiveCache, load_cache])
    (by intro h; cases h)

/-- Counterexample to C6 as stated: two well-formed JSON cache documents
with malformed pieces are fatal — a JSON array makes the startup cache
application raise `AttributeError` at `cache.get`, and a string-typed
`fetch_count` on today's record makes the refresh raise `TypeError` at the
`>=` quota comparison. -/
theorem spec_C6_counterexample :
    apply_cached_rates ⟨RATES0, .content (.arr [.num 1])⟩ = .error .attributeError ∧
    actualizar_tasas_api
        ⟨RATES0, .content (.obj [("day", .str "2025-05-05"), ("fetch_count", .str "2")])⟩
        "2025-05-05" "TS" .netFail 2 = .error .typeError := by
  constructor
  · simp [apply_cached_rates, load_cache, pyTruthy]
  · simp [actualizar_tasas_api, effectiveCache, load_cache, pyTruthy, quotaCheck,
      dictGet, jEqStr, pyGE]

/-! ### Error analysis of the 28-digit decimal context -/

theorem rhe_sub_abs_le (x : ℚ) : |(rhe x : ℚ) - x| ≤ 1/2 := by
  have h0 : ((⌊x⌋ : ℤ) : ℚ) ≤ x := Int.floor_le x
  have h1 : x < (⌊x⌋ : ℚ) + 1 := Int.lt_floor_add_one x
  unfold rhe
  split_ifs with hA hB hC <;> rw [abs_le] <;> push_cast <;>
    constructor <;> linarith

theorem decExp_add_le (q : ℚ) (hq : q ≠ 0) : (10 : ℚ) ^ (decExp q + 27) ≤ |q| := by
  set n := q.num.natAbs with hn_def
  set d := q.den with hd_def
  have hn : n ≠ 0 := by
    simp [hn_def, Int.natAbs_ne_zero, Rat.num_ne_zero, hq]
  have hd : 0 < d := q.pos
  have hdenpos : (0 : ℚ) < ((q.den : ℤ) : ℚ) := by exact_mod_cast q.pos
  have habs : |q| = (n : ℚ) / (d : ℚ) := by
    rw [hn_def, hd_def, Int.cast_natAbs]
    rw [show ((q.den : ℕ) : ℚ) = ((q.den : ℤ) : ℚ) from by push_cast; rfl]
    rw [← abs_of_pos hdenpos, Int.cast_abs, ← abs_div]
    rw [show ((q.num : ℤ) : ℚ) / ((q.den : ℤ) : ℚ) = q from by
      exact_mod_cast Rat.num_div_den q]
  have hdq : (0 : ℚ) < (d : ℚ) := by exact_mod_cast hd
  rw [habs]
  have h10 : (10 : ℚ) ≠ 0 := by norm_num
  have hexp : decExp q + 27 =
      if d * 10 ^ (Nat.log 10 n + 1) ≤ n * 10 ^ (Nat.log 10 d + 1) then
        (Nat.log 10 n : ℤ) - Nat.log 10 d
      else (Nat.log 10 n : ℤ) - Nat.log 10 d - 1 := by
    simp only [decExp, ← hn_def, ← hd_def]
    split_ifs <;> push_cast <;> ring
  rw [hexp]
  split_ifs with hcond
  · have hcond' : d * 10 ^ Nat.log 10 n ≤ n * 10 ^ Nat.log 10 d := by
      rw [pow_succ, pow_succ, ← mul_assoc, ← mul_assoc] at hcond
      exact Nat.le_of_mul_le_mul_right hcond (by norm_num)
    rw [le_div_iff₀ hdq, zpow_sub₀ h10, zpow_natCast, zpow_natCast,
      div_mul_eq_mul_div, div_le_iff₀ (by positivity)]
    calc (10 : ℚ) ^ Nat.log 10 n * (d : ℚ)
        = ((10 ^ Nat.log 10 n * d : ℕ) : ℚ) := by push_cast; ring
      _ ≤ ((n * 10 ^ Nat.log 10 d : ℕ) : ℚ) := by
          exact_mod_cast (by linarith [hcond'] :
            10 ^ Nat.log 10 n * d ≤ n * 10 ^ Nat.log 10 d)
      _ = (n : ℚ) * 10 ^ Nat.log 10 d := by push_cast; ring
  · have hlow : 10 ^ Nat.log 10 n ≤ n := Nat.pow_log_le_self 10 hn
    have hhigh : d ≤ 10 ^ (Nat.log 10 d + 1) :=
      le_of_lt (Nat.lt_pow_succ_log_self (by norm_num) d)
    have hmul : 10 ^ Nat.log 10 n * d ≤ n * 10 ^ (Nat.log 10 d + 1) :=
      Nat.mul_le_mul hlow hhigh
    have he : (Nat.log 10 n : ℤ) - Nat.log 10 d - 1 =
        (Nat.log 10 n : ℤ) - ((Nat.log 10 d + 1 : ℕ) : ℤ) := by push_cast; ring
    rw [he, le_div_iff₀ hdq, zpow_sub₀ h10, zpow_natCast, zpow_natCast,
      div_mul_eq_mul_div, div_le_iff₀ (by positivity)]
    calc (10 : ℚ) ^ Nat.log 10 n * (d : ℚ)
        = ((10 ^ Nat.log 10 n * d : ℕ) : ℚ) := by push_cast; ring
      _ ≤ ((n * 10 ^ (Nat.log 10 d + 1) : ℕ) : ℚ) := by exact_mod_cast hmul
      _ = (n : ℚ) * 10 ^ (Nat.log 10 d + 1) := by push_cast; ring

theorem decRound_abs_sub_le (q : ℚ) :
    |decRound q - q| ≤ 5 / 10 ^ 28 * |q| := by
  by_cases hq : q = 0
  · simp [decRound, hq]
  · unfold decRound
    rw [if_neg hq]
    have h10 : (10 : ℚ) ≠ 0 := by norm_num
    have hepos : (0 : ℚ) < (10 : ℚ) ^ decExp q := zpow_pos (by norm_num) _
    have hsplit : (rhe (q * (10 : ℚ) ^ (-decExp q)) : ℚ) * (10 : ℚ) ^ decExp q - q =
        ((rhe (q * (10 : ℚ) ^ (-decExp q)) : ℚ) - q * (10 : ℚ) ^ (-decExp q)) *
          (10 : ℚ) ^ decExp q := by
      rw [sub_mul, mul_assoc, ← zpow_add₀ h10]
      norm_num
    rw [hsplit, abs_mul, abs_of_pos hepos]
    have hrb := rhe_sub_abs_le (q * (10 : ℚ) ^ (-decExp q))
    have hstep : |(rhe (q * (10 : ℚ) ^ (-decExp q)) : ℚ) - q * (10 : ℚ) ^ (-decExp q)| *
        (10 : ℚ) ^ decExp q ≤ 1/2 * (10 : ℚ) ^ decExp q :=
      mul_le_mul_of_nonneg_right hrb (le_of_lt hepos)
    refine le_trans hstep ?_
    have hee := decExp_add_le q hq
    rw [zpow_add₀ h10] at hee
    have h27 : (10 : ℚ) ^ (27 : ℤ) = 10 ^ (27 : ℕ) := by
      norm_num
    rw [h27] at hee
    nlinarith [hee, hepos, abs_nonneg q]

theorem decRound_bounds (q : ℚ) (h : 0 ≤ q) :
    (1 - 5 / 10 ^ 28) * q ≤ decRound q ∧ decRound q ≤ (1 + 5 / 10 ^ 28) * q := by
  have := decRound_abs_sub_le q
  rw [abs_of_nonneg h] at this
  rw [abs_le] at this
  constructor <;> nlinarith [this.1, this.2]

theorem decRound_nonneg (q : ℚ) (h : 0 ≤ q) : 0 ≤ decRound q := by
  have hb := (decRound_bounds q h).1
  nlinarith [hb]

/-! ### C7: the conversion formula -/

/-- C7: converting with equal codes returns the amount itself, exactly,
before any table access or rounding; for distinct codes the result is
`(amount / rate[from]) * rate[to]` computed in decimal arithmetic — each of
the two steps an exact rational operation rounded to the 28-significant-
digit context — with the amount in the USD reference unit as the
intermediate value. -/
theorem spec_C7_convert (tbl : Table) (f t : String) (rf rt : ℚ)
    (hft : f ≠ t) (hf : tbl f = some rf) (ht : tbl t = some rt) (hrf : rf ≠ 0) :
    (∀ x : ℚ, ∀ c, convertir tbl x c c = some x) ∧
    (∀ x : ℚ, convertir tbl x f t = some (decMul (decDiv x rf) rt)) ∧
    (∀ x : ℚ, decMul (decDiv x rf) rt = decRound (decRound (x / rf) * rt)) := by
  refine ⟨fun x c => by simp [convertir], fun x => ?_, fun x => rfl⟩
  simp [convertir, hft, hf, ht, hrf]

/-- Witness for C7 on the default table, converting USD to MXN. -/
theorem spec_C7_convert_witness :
    (∀ x : ℚ, ∀ c, convertir RATES0 x c c = some x) ∧
    (∀ x : ℚ, convertir RATES0 x "USD" "MXN" = some (decMul (decDiv x 1) (198/10))) ∧
    (∀ x : ℚ, decMul (decDiv x 1) (198/10) = decRound (decRound (x / 1) * (198/10))) :=
  spec_C7_convert RATES0 "USD" "MXN" 1 (198/10) (by decide)
    (by simp [RATES0]) (by simp [RATES0]) (by norm_num)

/-! ### C8: round-trip conversion -/

/-- C8: a conversion and its inverse compose to the original amount up to
the relative error of four context roundings (two divisions and two
multiplications at 28 significant digits, each a relative error of at most
half an ulp, `5·10⁻²⁸`), which is comfortably bounded by `x·10⁻²⁶`; no
presentation rounding intervenes. -/
theorem spec_C8_roundtrip (tbl : Table) (f t : String) (rf rt x : ℚ)
    (hf : tbl f = some rf) (ht : tbl t = some rt) (hrf : 0 < rf) (hrt : 0 < rt)
    (hx : 0 ≤ x) :
    ∃ y z, convertir tbl x f t = some y ∧ convertir tbl y t f = some z ∧
      |z - x| ≤ x / 10 ^ 26 := by
  by_cases hft : f = t
  · subst hft
    refine ⟨x, x, by simp [convertir], by simp [convertir], ?_⟩
    simp only [sub_self, abs_zero]
    exact div_nonneg hx (by norm_num)
  · have hft' : t ≠ f := fun h => hft h.symm
    have hrf' : rf ≠ 0 := ne_of_gt hrf
    have hrt' : rt ≠ 0 := ne_of_gt hrt
    obtain ⟨ε, hεpos, hε1, hεeq⟩ : ∃ ε : ℚ, 0 < ε ∧ ε < 1 ∧ ε = 5 / 10 ^ 28 :=
      ⟨5 / 10 ^ 28, by norm_num, by norm_num, rfl⟩
    have hεn : (0 : ℚ) ≤ 1 + ε := by linarith
    set a := x / rf with ha
    have ha0 : 0 ≤ a := div_nonneg hx hrf.le
    set y1 := decRound a with hy1
    have hb1 := decRound_bounds a ha0
    rw [← hy1, ← hεeq] at hb1
    have hy10 : 0 ≤ y1 := decRound_nonneg a ha0
    set b := y1 * rt with hb
    have hb0 : 0 ≤ b := mul_nonneg hy10 hrt.le
    set y := decRound b with hy
    have hb2 := decRound_bounds b hb0
    rw [← hy, ← hεeq, hb] at hb2
    have hy0 : 0 ≤ y := decRound_nonneg b hb0
    have hyub : y ≤ (1+ε)^2 * (a * rt) := by
      have h1 : y1 * rt ≤ ((1+ε) * a) * rt :=
        mul_le_mul_of_nonneg_right hb1.2 hrt.le
      have h2 : (1+ε) * (y1 * rt) ≤ (1+ε) * (((1+ε) * a) * rt) :=
        mul_le_mul_of_nonneg_left h1 hεn
      linarith [hb2.2, h2]
    have hylb : (1-ε)^2 * (a * rt) ≤ y := by
      have h1 : ((1-ε) * a) * rt ≤ y1 * rt :=
        mul_le_mul_of_nonneg_right hb1.1 hrt.le
      have h2 : (1-ε) * (((1-ε) * a) * rt) ≤ (1-ε) * (y1 * rt) :=
        mul_le_mul_of_nonneg_left h1 (by linarith)
      linarith [hb2.1, h2]
    set c2 := y / rt with hc2
    have hc20 : 0 ≤ c2 := div_nonneg hy0 hrt.le
    have hc2ub : c2 ≤ (1+ε)^2 * a := by
      rw [hc2, div_le_iff₀ hrt]
      linarith [hyub]
    have hc2lb : (1-ε)^2 * a ≤ c2 := by
      rw [hc2, le_div_iff₀ hrt]
      linarith [hylb]
    set z1 := decRound c2 with hz1
    have hb3 := decRound_bounds c2 hc20
    rw [← hz1, ← hεeq] at hb3
    have hz10 : 0 ≤ z1 := decRound_nonneg c2 hc20
    have hz1ub : z1 ≤ (1+ε)^3 * a := by
      have h2 : (1+ε) * c2 ≤ (1+ε) * ((1+ε)^2 * a) :=
        mul_le_mul_of_nonneg_left hc2ub hεn
      linarith [hb3.2, h2]
    have hz1lb : (1-ε)^3 * a ≤ z1 := by
      have h2 : (1-ε) * ((1-ε)^2 * a) ≤ (1-ε) * c2 :=
        mul_le_mul_of_nonneg_left hc2lb (by linarith)
      linarith [hb3.1, h2]
    set dd := z1 * rf with hdd
    have hdd0 : 0 ≤ dd := mul_nonneg hz10 hrf.le
    set z := decRound dd with hz
    have hb4 := decRound_bounds dd hdd0
    rw [← hz, ← hεeq, hdd] at hb4
    have harf : a * rf = x := div_mul_cancel₀ x hrf'
    have hzub : z ≤ (1+ε)^4 * (a * rf) := by
      have h1 : z1 * rf ≤ ((1+ε)^3 * a) * rf :=
        mul_le_mul_of_nonneg_right hz1ub hrf.le
      have h2 : (1+ε) * (z1 * rf) ≤ (1+ε) * (((1+ε)^3 * a) * rf) :=
        mul_le_mul_of_nonneg_left h1 hεn
      linarith [hb4.2, h2]
    rw [harf] at hzub
    have hzlb : (1-ε)^4 * (a * rf) ≤ z := by
      have h1 : ((1-ε)^3 * a) * rf ≤ z1 * rf :=
        mul_le_mul_of_nonneg_right hz1lb hrf.le
      have h2 : (1-ε) * (((1-ε)^3 * a) * rf) ≤ (1-ε) * (z1 * rf) :=
        mul_le_mul_of_nonneg_left h1 (by linarith)
      linarith [hb4.1, h2]
    rw [harf] at hzlb
    refine ⟨y, z, ?_, ?_, ?_⟩
    · simp only [convertir, if_neg hft, hf, ht, if_neg hrf']
      rw [hy, hb, hy1, ha]
      rfl
    · simp only [convertir, if_neg hft', ht, hf, if_neg hrt']
      rw [hz, hdd, hz1, hc2]
      rfl
    · have hnum1 : 1 - (1-ε)^4 ≤ 1 / 10^26 := by rw [hεeq]; norm_num
      have hnum2 : (1+ε)^4 - 1 ≤ 1 / 10^26 := by rw [hεeq]; norm_num
      have hq26 : x / 10 ^ 26 = (1 / 10^26) * x := by ring
      rw [abs_le, hq26]
      constructor
      · have h3 : (1 - (1-ε)^4) * x ≤ (1 / 10^26) * x :=
          mul_le_mul_of_nonneg_right hnum1 hx
        linarith [hzlb, h3]
      · have h3 : ((1+ε)^4 - 1) * x ≤ (1 / 10^26) * x :=
          mul_le_mul_of_nonneg_right hnum2 hx
        linarith [hzub, h3]

/-- Witness for C8 on the default table, USD to MXN and back at 100. -/
theorem spec_C8_roundtrip_witness :
    ∃ y z, convertir RATES0 100 "USD" "MXN" = some y ∧
      convertir RATES0 y "MXN" "USD" = some z ∧ |z - 100| ≤ 100 / 10 ^ 26 :=
  spec_C8_roundtrip RATES0 "USD" "MXN" 1 (198/10) 100
    (by simp [RATES0]) (by simp [RATES0]) (by norm_num) (by norm_num) (by norm_num)

/-! ### C9: presentation rounding -/

theorem quantHalfUpCents_closed (q : ℚ) (h : 0 ≤ q) :
    quantHalfUpCents q = ⌊q * 100 + 1/2⌋ := by
  simp only [quantHalfUpCents, abs_of_nonneg h, if_neg (not_lt.mpr h)]
  have h0 : ((⌊q * 100⌋ : ℤ) : ℚ) ≤ q * 100 := Int.floor_le _
  have h1 : q * 100 < (⌊q * 100⌋ : ℚ) + 1 := Int.lt_floor_add_one _
  split_ifs with hr
  · symm
    rw [Int.floor_eq_iff]
    constructor <;> push_cast <;> linarith
  · symm
    rw [Int.floor_eq_iff]
    constructor <;> push_cast <;> linarith

/-- C9: `formatea` renders the amount rounded to exactly two fractional
digits with round-half-up — for a non-negative amount the selected cent
count is `⌊100·q + 1/2⌋`, lies within half a cent of the amount, and a tie
rounds up, away from zero — followed by a space and the code; in particular
1.005 prints as `"1.01 USD"` and 1.004 as `"1.00 USD"`. -/
theorem spec_C9_present (q : ℚ) (hq : 0 ≤ q) :
    (∀ code, formatea q code = centsToString false ⌊q * 100 + 1/2⌋ ++ " " ++ code) ∧
    formatea (1005/1000) "USD" = "1.01 USD" ∧
    formatea (1004/1000) "USD" = "1.00 USD" ∧
    |(quantHalfUpCents q : ℚ) / 100 - q| ≤ 1/200 ∧
    (q * 100 - ⌊q * 100⌋ = 1/2 → quantHalfUpCents q = ⌊q * 100⌋ + 1) := by
  have hfl1 := Int.floor_le (q * 100 + 1/2)
  have hfl2 := Int.lt_floor_add_one (q * 100 + 1/2)
  refine ⟨?_, ?_, ?_, ?_, ?_⟩
  · intro code
    rw [formatea, quantHalfUpCents_closed q hq]
    have : decide (q < 0) = false := decide_eq_false (not_lt.mpr hq)
    rw [this]
  · have h1 : quantHalfUpCents (1005/1000) = 101 := by
      rw [quantHalfUpCents_closed _ (by norm_num)]
      rw [show (1005/1000 : ℚ) * 100 + 1/2 = ((101 : ℤ) : ℚ) from by norm_num]
      exact Int.floor_intCast 101
    have h2 : decide ((1005/1000 : ℚ) < 0) = false := decide_eq_false (by norm_num)
    rw [formatea, h1, h2]
    decide
  · have h1 : quantHalfUpCents (1004/1000) = 100 := by
      rw [quantHalfUpCents_closed _ (by norm_num)]
      have : ⌊(1004/1000 : ℚ) * 100 + 1/2⌋ = 100 := by
        rw [Int.floor_eq_iff] <;> norm_num
      exact this
    have h2 : decide ((1004/1000 : ℚ) < 0) = false := decide_eq_false (by norm_num)
    rw [formatea, h1, h2]
    decide
  · rw [quantHalfUpCents_closed q hq, abs_le]
    constructor <;> push_cast <;> linarith
  · intro htie
    simp only [quantHalfUpCents, abs_of_nonneg hq, if_neg (not_lt.mpr hq), htie]
    norm_num

/-- Witness for C9 at the claim's own inputs. -/
theorem spec_C9_present_witness :
    formatea (1005/1000) "USD" = "1.01 USD" ∧ formatea (1004/1000) "USD" = "1.00 USD" :=
  ⟨(spec_C9_present 0 le_rfl).2.1, (spec_C9_present 0 le_rfl).2.2.1⟩

/-! ### C10: conversion and presentation are read-only -/

/-- C10: `convertir` and `formatea` are read-only and deterministic: run as
state transformers they return the state — table, cache file, and hence
the remaining daily quota — exactly as given, and their results depend only
on the rate table and the arguments. -/
theorem spec_C10_readonly (s s' : ProgState) (monto valor : ℚ)
    (desde hacia code : String) (htbl : s.RATES = s'.RATES) :
    (convertirST s monto desde hacia).2 = s ∧
    (formateaST s valor code).2 = s ∧
    (convertirST s monto desde hacia).2.cacheFile = s.cacheFile ∧
    (convertirST s monto desde hacia).1 = (convertirST s' monto desde hacia).1 ∧
    (formateaST s valor code).1 = (formateaST s' valor code).1 := by
  refine ⟨rfl, rfl, rfl, ?_, rfl⟩
  simp [convertirST, htbl]

/-- Witness for C10 at two states sharing the table but not the cache. -/
theorem spec_C10_readonly_witness :
    (convertirST ⟨RATES0, .missing⟩ 3 "USD" "EUR").2 = ⟨RATES0, .missing⟩ ∧
    (formateaST ⟨RATES0, .missing⟩ 3 "EUR").2 = ⟨RATES0, .missing⟩ ∧
    (convertirST ⟨RATES0, .missing⟩ 3 "USD" "EUR").2.cacheFile = CacheFile.missing ∧
    (convertirST ⟨RATES0, .missing⟩ 3 "USD" "EUR").1 =
      (convertirST ⟨RATES0, .content .null⟩ 3 "USD" "EUR").1 ∧
    (formateaST ⟨RATES0, .missing⟩ 3 "EUR").1 =
      (formateaST ⟨RATES0, .content .null⟩ 3 "EUR").1 :=
  spec_C10_readonly ⟨RATES0, .missing⟩ ⟨RATES0, .content .null⟩ 3 3 "USD" "EUR" "EUR" rfl

end Conversor
